import Mathlib

/-
Verification of the durable-execution core described by the repository:
checkpoint store, task executor, entrypoint orchestrator and stream
emitter, together with the notebook's example workflow body
(src/docs/docs/how-tos/persistence-functional.ipynb).
-/

namespace LangGraph

/-- Modelled from the spec: the error taxonomy of §7 (the implementations of
NotFoundError, ConflictError and TaskError are not under src/). -/
inductive StoreError where
  | notFoundError
  | conflictError
  | taskError (msg : String)
  deriving DecidableEq, Repr

/-- Modelled from the spec: the Checkpoint record of §3 — (thread_id,
checkpoint_id, parent_checkpoint_id | none, channel_values).  The
creation_timestamp and metadata fields play no role in any claim and are
omitted; checkpoint_id is a natural number, monotonically ordered within a
thread, matching the open ordering scheme of §9.  The store implementation
itself (InMemorySaver) is not under src/. -/
structure Checkpoint (α : Type) where
  thread_id : String
  checkpoint_id : Nat
  parent_checkpoint_id : Option Nat
  channel_values : List (String × α)
  deriving DecidableEq, Repr

/-- Modelled from the spec: the PendingWrite record of §3 — (thread_id,
checkpoint_id, task_id, channel, value). -/
structure PendingWrite (α : Type) where
  thread_id : String
  checkpoint_id : Nat
  task_id : String
  channel : String
  value : α
  deriving DecidableEq, Repr

/-- Modelled from the spec: the durable state owned by the Checkpoint Store
(§3 ownership): the committed checkpoints and the recorded pending writes,
in insertion order. -/
structure Store (α : Type) where
  checkpoints : List (Checkpoint α)
  writes : List (PendingWrite α)
  deriving DecidableEq, Repr

/-- Checkpoints belonging to one thread, in insertion order. -/
def threadCheckpoints (s : Store α) (tid : String) : List (Checkpoint α) :=
  s.checkpoints.filter (fun c => c.thread_id == tid)

/-- Pending writes belonging to one thread, in insertion order. -/
def writesOf (s : Store α) (tid : String) : List (PendingWrite α) :=
  s.writes.filter (fun w => w.thread_id == tid)

/-- Checkpoint with the greatest checkpoint_id in a list, or none. -/
def latestCp : List (Checkpoint α) → Option (Checkpoint α)
  | [] => none
  | c :: cs =>
    match latestCp cs with
    | none => some c
    | some d => if d.checkpoint_id < c.checkpoint_id then some c else some d

/-- Modelled from the spec: `get_latest(thread_id) -> Checkpoint | none`
(§4.1) — the checkpoint with the greatest checkpoint_id for the thread, or
none if the thread has no history.  The backing implementation is not under
src/. -/
def get_latest (s : Store α) (tid : String) : Option (Checkpoint α) :=
  latestCp (threadCheckpoints s tid)

/-- Modelled from the spec: `get(thread_id, checkpoint_id) -> Checkpoint |
fails with NotFound` (§4.1). -/
def get (s : Store α) (tid : String) (cid : Nat) : Except StoreError (Checkpoint α) :=
  match (threadCheckpoints s tid).find? (fun c => c.checkpoint_id == cid) with
  | some c => .ok c
  | none => .error .notFoundError

/-- Modelled from the spec: `put(checkpoint) -> ()` (§4.1) — appends a new
checkpoint; fails with ConflictError if a checkpoint with the same id
already exists for the thread, except that an identical retry of the same
commit succeeds as a no-op. -/
def put [DecidableEq α] (s : Store α) (c : Checkpoint α) : Except StoreError (Store α) :=
  match (threadCheckpoints s c.thread_id).find? (fun d => d.checkpoint_id == c.checkpoint_id) with
  | some d => if d = c then .ok s else .error .conflictError
  | none => .ok { s with checkpoints := s.checkpoints ++ [c] }

/-- Modelled from the spec: `put_writes(thread_id, checkpoint_id, writes)`
(§4.1) — records task outputs associated with an in-progress checkpoint
before the checkpoint itself is committed.  Each write is given as
(task_id, channel, value) and stamped with the invocation's thread and
checkpoint identity. -/
def stampWrites (tid : String) (cid : Nat) (nw : List (String × String × α)) :
    List (PendingWrite α) :=
  nw.map (fun w => ⟨tid, cid, w.1, w.2.1, w.2.2⟩)

/-- Modelled from the spec: `put_writes` applied to a store (§4.1). -/
def put_writes (s : Store α) (tid : String) (cid : Nat)
    (nw : List (String × String × α)) : Store α :=
  { s with writes := s.writes ++ stampWrites tid cid nw }

/-- Pending writes recorded for one in-progress (thread_id, checkpoint_id). -/
def threadWrites (s : Store α) (tid : String) (cid : Nat) : List (PendingWrite α) :=
  (writesOf s tid).filter (fun w => w.checkpoint_id == cid)

/-- Modelled from the spec: the designated save channel (§4.3) on which the
orchestrator persists the workflow's save value. -/
def saveChannel : String := "__previous__"

/-- Value stored on a named channel of a channel_values mapping. -/
def lookupChannel (cvs : List (String × α)) (ch : String) : Option α :=
  match cvs.find? (fun p => p.1 == ch) with
  | some p => some p.2
  | none => none

/-- Modelled from the spec: resolution of `previous` (§4.3) — the value
stored on the designated save channel of the latest checkpoint for
thread_id, or the absence sentinel (none) if no checkpoint exists yet. -/
def resolvePrevious (s : Store α) (tid : String) : Option α :=
  match get_latest s tid with
  | none => none
  | some cp => lookupChannel cp.channel_values saveChannel

/-- PendingWrite cached for a given task of an in-progress checkpoint. -/
def findWrite (ws : List (PendingWrite α)) (tid : String) (cid : Nat)
    (task_id : String) : Option (PendingWrite α) :=
  ws.find? (fun w => w.thread_id == tid && w.checkpoint_id == cid && w.task_id == task_id)

/-- Outcome of one executor submission: the task result, the updated write
list, and the number of times the underlying function was invoked. -/
structure SubmitResult (α : Type) where
  result : Except String α
  writes : List (PendingWrite α)
  calls : Nat
  deriving Repr

/-- Modelled from the spec: `submit(task_id, function, args)` (§4.2) — the
executor implementation is not under src/.  Before running, consults
PendingWrite records for the current (thread_id, checkpoint_id): a cached
write for the exact task_id is returned without invoking the function; on
success the result is returned and recorded as a PendingWrite; on failure
the error is not cached. -/
def submit (ws : List (PendingWrite α)) (tid : String) (cid : Nat)
    (task_id : String) (ch : String) (f : Unit → Except String α) : SubmitResult α :=
  match findWrite ws tid cid task_id with
  | some w => ⟨.ok w.value, ws, 0⟩
  | none =>
    match f () with
    | .ok v => ⟨.ok v, ws ++ [⟨tid, cid, task_id, ch, v⟩], 1⟩
    | .error e => ⟨.error e, ws, 1⟩

/-- Modelled from the spec: the checkpoint_id the orchestrator assigns to
the checkpoint in progress — any total order monotonic per thread is
allowed (§9); here, one more than the thread's greatest committed id (0 for
a fresh thread). -/
def nextCheckpointId (s : Store α) (tid : String) : Nat :=
  match get_latest s tid with
  | none => 0
  | some cp => cp.checkpoint_id + 1

/-- Modelled from the spec: base-checkpoint resolution for one invocation —
the latest checkpoint of the thread, or, when the configuration carries a
`checkpoint_id` (§6), that specific historical checkpoint (to resume from
or fork off). -/
def baseCheckpoint (s : Store α) (tid : String) (cfg : Option Nat) :
    Except StoreError (Option (Checkpoint α)) :=
  match cfg with
  | none => .ok (get_latest s tid)
  | some cid =>
    match get s tid cid with
    | .ok cp => .ok (some cp)
    | .error e => .error e

/-- Modelled from the spec: `invoke(thread_id, inputs, workflow_fn)`
(§4.3) — the entrypoint implementation is not under src/.  Resolves
`previous` from the base checkpoint's save channel, records the pending
writes the body produced (put_writes, kept even on failure for mid-step
crash recovery), and on success commits exactly one new checkpoint whose
save channel holds the save value, parented on the base checkpoint.  The
workflow body receives (inputs, previous, pending writes of the in-progress
checkpoint) and returns the writes to record together with either an error
or the (return value, save value) pair. -/
def invoke [DecidableEq α] (s : Store α) (tid : String) (cfg : Option Nat) (inputs : ι)
    (wf : ι → Option α → List (PendingWrite α) →
      List (String × String × α) × Except String (ρ × α)) :
    Store α × Except StoreError ρ :=
  match baseCheckpoint s tid cfg with
  | .error e => (s, .error e)
  | .ok bcp =>
    match wf inputs (bcp.bind (fun cp => lookupChannel cp.channel_values saveChannel))
        (threadWrites s tid (nextCheckpointId s tid)) with
    | (nw, .error e) => (put_writes s tid (nextCheckpointId s tid) nw, .error (.taskError e))
    | (nw, .ok (ret, save)) =>
      match put (put_writes s tid (nextCheckpointId s tid) nw)
          ⟨tid, nextCheckpointId s tid, bcp.map (fun b => b.checkpoint_id),
            [(saveChannel, save)]⟩ with
      | .ok s2 => (s2, .ok ret)
      | .error e => (put_writes s tid (nextCheckpointId s tid) nw, .error e)

/-- Store produced by a successful plain invocation (no forking config). -/
def committedStore [DecidableEq α] (s : Store α) (tid : String)
    (nw : List (String × String × α)) (save : α) : Store α :=
  { checkpoints := s.checkpoints ++
      [⟨tid, nextCheckpointId s tid, (get_latest s tid).map (fun b => b.checkpoint_id),
        [(saveChannel, save)]⟩],
    writes := s.writes ++ stampWrites tid (nextCheckpointId s tid) nw }

/-- Concrete workflow body used to witness C1: record no writes, return 1,
save 2. -/
def wfC1 : Nat → Option Nat → List (PendingWrite Nat) →
    List (String × String × Nat) × Except String (Nat × Nat) :=
  fun _ _ _ => ([], Except.ok (1, 2))

/-- Concrete workflow body used to witness C5: record one write for task
"ta" and then fail. -/
def wfC5 : Nat → Option Nat → List (PendingWrite Nat) →
    List (String × String × Nat) × Except String (Nat × Nat) :=
  fun _ _ _ => ([("ta", "ch", 7)], Except.error "boom")

/-- Concrete workflow body used to witness C7: record no writes, return 3,
save 4. -/
def wfC7 : Nat → Option Nat → List (PendingWrite Nat) →
    List (String × String × Nat) × Except String (Nat × Nat) :=
  fun _ _ _ => ([], Except.ok (3, 4))

/-- Modelled from the spec: the tree invariant of §3 — every checkpoint's
parent_checkpoint_id, when present, references an existing checkpoint of
the same thread and has a strictly smaller checkpoint_id, so the parent
relation can have no cycle. -/
def TreeInv (s : Store α) : Prop :=
  ∀ c ∈ s.checkpoints, ∀ p, c.parent_checkpoint_id = some p →
    p < c.checkpoint_id ∧
      ∃ d ∈ s.checkpoints, d.thread_id = c.thread_id ∧ d.checkpoint_id = p

/-- One invocation request of a run: thread, optional fork configuration,
inputs and workflow body (inputs, return and save values all of type α). -/
structure Step (α : Type) where
  tid : String
  cfg : Option Nat
  inputs : α
  wf : α → Option α → List (PendingWrite α) →
    List (String × String × α) × Except String (α × α)

/-- Store after one invocation request (the result value is dropped). -/
def runStep [DecidableEq α] (s : Store α) (st : Step α) : Store α :=
  (invoke s st.tid st.cfg st.inputs st.wf).1

/-- Store after a sequence of invocation requests, possibly interleaved
across threads. -/
def runSeq [DecidableEq α] (s : Store α) (steps : List (Step α)) : Store α :=
  steps.foldl runStep s

/-- Everything one thread can observe of the store: its own checkpoints and
its own pending writes. -/
structure View (α : Type) where
  cps : List (Checkpoint α)
  pws : List (PendingWrite α)

/-- Projection of a store to one thread's view. -/
def threadView (s : Store α) (tid : String) : View α :=
  ⟨threadCheckpoints s tid, writesOf s tid⟩

/-- nextCheckpointId computed from a thread view alone. -/
def viewNextId (v : View α) : Nat :=
  match latestCp v.cps with
  | none => 0
  | some cp => cp.checkpoint_id + 1

/-- Base-checkpoint resolution computed from a thread view alone. -/
def viewBase (v : View α) (cfg : Option Nat) : Except StoreError (Option (Checkpoint α)) :=
  match cfg with
  | none => .ok (latestCp v.cps)
  | some cid =>
    match v.cps.find? (fun c => c.checkpoint_id == cid) with
    | some c => .ok (some c)
    | none => .error .notFoundError

/-- Effect of one invocation on the invoking thread's own view. -/
def viewInvoke [DecidableEq α] (v : View α) (st : Step α) : View α :=
  match viewBase v st.cfg with
  | .error _ => v
  | .ok bcp =>
    match st.wf st.inputs (bcp.bind (fun cp => lookupChannel cp.channel_values saveChannel))
        (v.pws.filter (fun w => w.checkpoint_id == viewNextId v)) with
    | (nw, .error _) => ⟨v.cps, v.pws ++ stampWrites st.tid (viewNextId v) nw⟩
    | (nw, .ok (_, save)) =>
      match v.cps.find? (fun d => d.checkpoint_id == viewNextId v) with
      | some _ => ⟨v.cps, v.pws ++ stampWrites st.tid (viewNextId v) nw⟩
      | none =>
        ⟨v.cps ++ [⟨st.tid, viewNextId v, bcp.map (fun b => b.checkpoint_id),
            [(saveChannel, save)]⟩],
          v.pws ++ stampWrites st.tid (viewNextId v) nw⟩

/-- View after a sequence of invocations of the viewing thread. -/
def viewRun [DecidableEq α] (v : View α) (steps : List (Step α)) : View α :=
  steps.foldl viewInvoke v

/-- resolvePrevious computed from a thread view alone. -/
def viewPrevious (v : View α) : Option α :=
  match latestCp v.cps with
  | none => none
  | some cp => lookupChannel cp.channel_values saveChannel

/-- Concrete workflow body used to witness C2 (thread A's activity): record
one write and save 100. -/
def wfC2 : Nat → Option Nat → List (PendingWrite Nat) →
    List (String × String × Nat) × Except String (Nat × Nat) :=
  fun _ _ _ => ([("ta", "ch", 1)], Except.ok (100, 100))

/-- Concrete workflow body used to witness C8: record no writes, return 0,
save 12. -/
def wfC8 : Nat → Option Nat → List (PendingWrite Nat) →
    List (String × String × Nat) × Except String (Nat × Nat) :=
  fun _ _ _ => ([], Except.ok (0, 12))

/-- Concrete store used to witness C8: thread "1" with two committed
checkpoints, id 1 the child of id 0. -/
def s8 : Store Nat :=
  ⟨[⟨"1", 0, none, [("__previous__", 10)]⟩, ⟨"1", 1, some 0, [("__previous__", 11)]⟩], []⟩

/-- Modelled from the spec: a unit of work handed to the Stream Emitter
(§4.4) — a deterministically-identified task, the tasks it causally depends
on, and its effect on the cumulative visible value. -/
structure STask (α : Type) where
  id : String
  deps : List String
  fn : α → α

/-- An emitted stream event in mode `values`: the producing task and the
cumulative visible value at its completion. -/
structure Event (α : Type) where
  task : String
  value : α
  deriving DecidableEq, Repr

/-- A task is runnable once all the tasks it depends on have completed. -/
def runnableB (done : List String) (t : STask α) : Bool :=
  t.deps.all (fun d => done.contains d)

/-- First element satisfying the test, together with the remaining list. -/
def extractFirst (p : β → Bool) : List β → Option (β × List β)
  | [] => none
  | x :: xs =>
    if p x then some (x, xs)
    else
      match extractFirst p xs with
      | none => none
      | some (y, ys) => some (y, x :: ys)

/-- Modelled from the spec: the Stream Emitter loop (§4.4, §5) — the
implementation is not under src/.  Repeatedly completes a runnable unit of
work (tasks that consume another task's result wait for it) and, in mode
`values`, emits the cumulative visible value each time it changes, in
completion order. -/
def streamLoop [DecidableEq α] :
    Nat → List (STask α) → List String → α → List (Event α) → List (Event α)
  | 0, _, _, _, evs => evs
  | fuel + 1, pending, done, acc, evs =>
    match extractFirst (runnableB done) pending with
    | none => evs
    | some (t, rest) =>
      streamLoop fuel rest (done ++ [t.id]) (t.fn acc)
        (if t.fn acc = acc then evs else evs ++ [⟨t.id, t.fn acc⟩])

/-- Modelled from the spec: `stream` in mode `values` for one invocation
(§4.4): the finite event sequence produced by completing the given tasks. -/
def streamValues [DecidableEq α] (tasks : List (STask α)) (init : α) : List (Event α) :=
  streamLoop tasks.length tasks [] init []

/-- Concrete task list used to witness C9: task "b" consumes the result of
task "a". -/
def tasks9 : List (STask Nat) :=
  [⟨"a", [], fun n => n + 1⟩, ⟨"b", ["a"], fun n => n * 2⟩]

/-- Dependencies of a task id within a task list. -/
def depsOf (tasks : List (STask α)) (id : String) : List String :=
  match tasks.find? (fun t => t.id == id) with
  | some t => t.deps
  | none => []

/-- Modelled from the spec: `add_messages` (imported from langgraph.graph,
not under src/) — the spec's workflow sketch treats it as appending the new
messages to the existing history (`combined_inputs = previous + inputs`). -/
def add_messages (left right : List μ) : List μ :=
  left ++ right

/-- The notebook's task `call_model`
(src/docs/docs/how-tos/persistence-functional.ipynb): invoke the chat model
on the messages and return its response.  The chat model is the opaque
external collaborator, passed as a parameter. -/
def call_model (model : List μ → μ) (messages : List μ) : μ :=
  model messages

/-- The notebook's workflow body
(src/docs/docs/how-tos/persistence-functional.ipynb): when `previous` is
truthy (a non-empty list) it is merged with the inputs via add_messages;
the model is called once on the merged inputs; the entrypoint.final result
returns the response while saving add_messages(inputs, response). -/
def workflow (model : List μ → μ) (inputs : List μ) (previous : Option (List μ)) :
    μ × List μ :=
  let inputs2 :=
    match previous with
    | some p => if p.isEmpty then inputs else add_messages p inputs
    | none => inputs
  let response := call_model model inputs2
  (response, add_messages inputs2 [response])

end LangGraph

namespace LangGraph

theorem latestCp_cons (c : Checkpoint α) (cs : List (Checkpoint α)) :
    latestCp (c :: cs) =
      match latestCp cs with
      | none => some c
      | some d => if d.checkpoint_id < c.checkpoint_id then some c else some d := rfl

theorem latestCp_cons_isSome (c : Checkpoint α) (cs : List (Checkpoint α)) :
    (latestCp (c :: cs)).isSome := by
  cases h : latestCp cs <;> simp [latestCp, h]
  split <;> simp

theorem latestCp_eq_none {l : List (Checkpoint α)} (h : latestCp l = none) : l = [] := by
  cases l with
  | nil => rfl
  | cons c cs =>
    have := latestCp_cons_isSome c cs
    rw [h] at this
    simp at this

theorem latestCp_cons_none (c : Checkpoint α) {cs : List (Checkpoint α)}
    (h : latestCp cs = none) : latestCp (c :: cs) = some c := by
  rw [latestCp_cons, h]

theorem latestCp_cons_some (c m : Checkpoint α) {cs : List (Checkpoint α)}
    (h : latestCp cs = some m) :
    latestCp (c :: cs) =
      if m.checkpoint_id < c.checkpoint_id then some c else some m := by
  rw [latestCp_cons, h]

theorem latestCp_le {l : List (Checkpoint α)} {c : Checkpoint α}
    (h : latestCp l = some c) : ∀ d ∈ l, d.checkpoint_id ≤ c.checkpoint_id := by
  induction l generalizing c with
  | nil => intro d hd; simp at hd
  | cons x xs ih =>
    intro d hd
    cases hx : latestCp xs with
    | none =>
      have hxs := latestCp_eq_none hx
      subst hxs
      rw [latestCp_cons_none x hx] at h
      injection h with h
      subst h
      simp at hd
      subst hd
      exact le_refl _
    | some m =>
      rw [latestCp_cons_some x m hx] at h
      rcases List.mem_cons.mp hd with hdx | hdxs
      · subst hdx
        split at h <;> injection h with h <;> subst h <;> omega
      · have hm := ih hx d hdxs
        split at h <;> injection h with h <;> subst h <;> omega

theorem latestCp_append_last {l : List (Checkpoint α)} {c : Checkpoint α}
    (h : ∀ d ∈ l, d.checkpoint_id < c.checkpoint_id) :
    latestCp (l ++ [c]) = some c := by
  induction l with
  | nil => rfl
  | cons x xs ih =>
    have hx : x.checkpoint_id < c.checkpoint_id := h x (by simp)
    have ih2 := ih (fun d hd => h d (by simp [hd]))
    show latestCp (x :: (xs ++ [c])) = some c
    rw [latestCp_cons, ih2]
    exact if_neg (by omega)

theorem lt_next_id (s : Store α) (tid : String) :
    ∀ d ∈ threadCheckpoints s tid, d.checkpoint_id < nextCheckpointId s tid := by
  intro d hd
  cases hl : get_latest s tid with
  | none =>
    have hnil := latestCp_eq_none (l := threadCheckpoints s tid) hl
    rw [hnil] at hd
    simp at hd
  | some m =>
    have hle := latestCp_le (l := threadCheckpoints s tid) hl d hd
    simp only [nextCheckpointId, hl]
    omega

theorem find?_next_id_none (s : Store α) (tid : String) :
    (threadCheckpoints s tid).find?
      (fun d => d.checkpoint_id == nextCheckpointId s tid) = none := by
  rw [List.find?_eq_none]
  intro x hx
  simp only [beq_iff_eq]
  have := lt_next_id s tid x hx
  omega

theorem resolvePrevious_eq_bind (s : Store α) (tid : String) :
    resolvePrevious s tid =
      (get_latest s tid).bind (fun cp => lookupChannel cp.channel_values saveChannel) := by
  cases h : get_latest s tid <;> simp [resolvePrevious, h]

theorem invoke_ok_none_cfg [DecidableEq α] (s : Store α) (tid : String) (inputs : ι)
    (wf : ι → Option α → List (PendingWrite α) →
      List (String × String × α) × Except String (ρ × α))
    (nw : List (String × String × α)) (ret : ρ) (save : α)
    (h : wf inputs (resolvePrevious s tid) (threadWrites s tid (nextCheckpointId s tid)) =
      (nw, .ok (ret, save))) :
    invoke s tid none inputs wf = (committedStore s tid nw save, .ok ret) := by
  rw [resolvePrevious_eq_bind] at h
  have hput : put (put_writes s tid (nextCheckpointId s tid) nw)
      (⟨tid, nextCheckpointId s tid, (get_latest s tid).map (fun b => b.checkpoint_id),
        [(saveChannel, save)]⟩ : Checkpoint α) = .ok (committedStore s tid nw save) := by
    unfold put
    rw [show (threadCheckpoints (put_writes s tid (nextCheckpointId s tid) nw)
        (⟨tid, nextCheckpointId s tid, (get_latest s tid).map (fun b => b.checkpoint_id),
          [(saveChannel, save)]⟩ : Checkpoint α).thread_id).find?
        (fun d => d.checkpoint_id ==
          (⟨tid, nextCheckpointId s tid, (get_latest s tid).map (fun b => b.checkpoint_id),
            [(saveChannel, save)]⟩ : Checkpoint α).checkpoint_id) = none from
      find?_next_id_none s tid]
    rfl
  unfold invoke baseCheckpoint
  simp only [h, hput]

theorem threadCheckpoints_committed [DecidableEq α] (s : Store α) (tid : String)
    (nw : List (String × String × α)) (save : α) :
    threadCheckpoints (committedStore s tid nw save) tid =
      threadCheckpoints s tid ++
        [⟨tid, nextCheckpointId s tid, (get_latest s tid).map (fun b => b.checkpoint_id),
          [(saveChannel, save)]⟩] := by
  unfold committedStore threadCheckpoints
  rw [List.filter_append]
  simp

theorem resolvePrevious_committed [DecidableEq α] (s : Store α) (tid : String)
    (nw : List (String × String × α)) (save : α) :
    resolvePrevious (committedStore s tid nw save) tid = some save := by
  have hlatest : get_latest (committedStore s tid nw save) tid =
      some ⟨tid, nextCheckpointId s tid, (get_latest s tid).map (fun b => b.checkpoint_id),
        [(saveChannel, save)]⟩ := by
    unfold get_latest
    rw [threadCheckpoints_committed]
    exact latestCp_append_last (lt_next_id s tid)
  rw [resolvePrevious_eq_bind, hlatest]
  simp [lookupChannel]

theorem latestCp_mem {l : List (Checkpoint α)} {c : Checkpoint α}
    (h : latestCp l = some c) : c ∈ l := by
  induction l generalizing c with
  | nil => simp [latestCp] at h
  | cons x xs ih =>
    cases hx : latestCp xs with
    | none =>
      rw [latestCp_cons_none x hx] at h
      injection h with h
      subst h
      exact List.mem_cons_self _ _
    | some m =>
      rw [latestCp_cons_some x m hx] at h
      split at h <;> injection h with h <;> subst h
      · exact List.mem_cons_self _ _
      · exact List.mem_cons_of_mem _ (ih hx)

theorem mem_threadCheckpoints {s : Store α} {tid : String} {c : Checkpoint α}
    (h : c ∈ threadCheckpoints s tid) : c ∈ s.checkpoints ∧ c.thread_id = tid := by
  unfold threadCheckpoints at h
  have h2 := List.mem_filter.mp h
  refine ⟨h2.1, ?_⟩
  have := h2.2
  simpa using this

theorem get_ok_mem {s : Store α} {tid : String} {cid : Nat} {b : Checkpoint α}
    (h : get s tid cid = .ok b) :
    b ∈ threadCheckpoints s tid ∧ b.checkpoint_id = cid := by
  unfold get at h
  cases hf : (threadCheckpoints s tid).find? (fun c => c.checkpoint_id == cid) with
  | none => rw [hf] at h; cases h
  | some d =>
    rw [hf] at h
    injection h with h
    subst h
    refine ⟨List.mem_of_find?_eq_some hf, ?_⟩
    have := List.find?_some hf
    simpa using this

theorem base_some_mem {s : Store α} {tid : String} {cfg : Option Nat} {b : Checkpoint α}
    (h : baseCheckpoint s tid cfg = .ok (some b)) : b ∈ threadCheckpoints s tid := by
  cases cfg with
  | none =>
    unfold baseCheckpoint at h
    injection h with h
    exact latestCp_mem h
  | some cid =>
    simp only [baseCheckpoint] at h
    cases hg : get s tid cid with
    | ok cp =>
      rw [hg] at h
      injection h with h
      injection h with h
      subst h
      exact (get_ok_mem hg).1
    | error e => rw [hg] at h; cases h

theorem put_cases [DecidableEq α] (s : Store α) (c : Checkpoint α) :
    put s c = .ok s ∨ put s c = .ok { s with checkpoints := s.checkpoints ++ [c] } ∨
      put s c = .error .conflictError := by
  unfold put
  cases h : (threadCheckpoints s c.thread_id).find?
      (fun d => d.checkpoint_id == c.checkpoint_id) with
  | some d =>
    by_cases hd : d = c
    · left; simp [hd]
    · right; right; simp [hd]
  | none => right; left; rfl

theorem invoke_base_error [DecidableEq α] {s : Store α} {tid : String} {cfg : Option Nat}
    (inputs : ι)
    (wf : ι → Option α → List (PendingWrite α) →
      List (String × String × α) × Except String (ρ × α))
    {e : StoreError} (hb : baseCheckpoint s tid cfg = .error e) :
    invoke s tid cfg inputs wf = (s, .error e) := by
  unfold invoke
  simp only [hb]

theorem invoke_wf_error [DecidableEq α] {s : Store α} {tid : String} {cfg : Option Nat}
    {inputs : ι}
    {wf : ι → Option α → List (PendingWrite α) →
      List (String × String × α) × Except String (ρ × α)}
    {bcp : Option (Checkpoint α)} {nw : List (String × String × α)} {e : String}
    (hb : baseCheckpoint s tid cfg = .ok bcp)
    (h : wf inputs (bcp.bind (fun cp => lookupChannel cp.channel_values saveChannel))
      (threadWrites s tid (nextCheckpointId s tid)) = (nw, .error e)) :
    invoke s tid cfg inputs wf =
      (put_writes s tid (nextCheckpointId s tid) nw, .error (.taskError e)) := by
  unfold invoke
  simp only [hb, h]

theorem invoke_ok_cfg [DecidableEq α] {s : Store α} {tid : String} {cfg : Option Nat}
    {inputs : ι}
    {wf : ι → Option α → List (PendingWrite α) →
      List (String × String × α) × Except String (ρ × α)}
    {bcp : Option (Checkpoint α)} {nw : List (String × String × α)} {ret : ρ} {save : α}
    (hb : baseCheckpoint s tid cfg = .ok bcp)
    (h : wf inputs (bcp.bind (fun cp => lookupChannel cp.channel_values saveChannel))
      (threadWrites s tid (nextCheckpointId s tid)) = (nw, .ok (ret, save))) :
    invoke s tid cfg inputs wf =
      ({ checkpoints := s.checkpoints ++
          [⟨tid, nextCheckpointId s tid, bcp.map (fun b => b.checkpoint_id),
            [(saveChannel, save)]⟩],
         writes := s.writes ++ stampWrites tid (nextCheckpointId s tid) nw }, .ok ret) := by
  have hput : put (put_writes s tid (nextCheckpointId s tid) nw)
      (⟨tid, nextCheckpointId s tid, bcp.map (fun b => b.checkpoint_id),
        [(saveChannel, save)]⟩ : Checkpoint α) =
      .ok { checkpoints := s.checkpoints ++
              [⟨tid, nextCheckpointId s tid, bcp.map (fun b => b.checkpoint_id),
                [(saveChannel, save)]⟩],
            writes := s.writes ++ stampWrites tid (nextCheckpointId s tid) nw } := by
    unfold put
    rw [show (threadCheckpoints (put_writes s tid (nextCheckpointId s tid) nw)
        (⟨tid, nextCheckpointId s tid, bcp.map (fun b => b.checkpoint_id),
          [(saveChannel, save)]⟩ : Checkpoint α).thread_id).find?
        (fun d => d.checkpoint_id ==
          (⟨tid, nextCheckpointId s tid, bcp.map (fun b => b.checkpoint_id),
            [(saveChannel, save)]⟩ : Checkpoint α).checkpoint_id) = none from
      find?_next_id_none s tid]
    rfl
  unfold invoke
  simp only [hb, h, hput]

theorem invoke_store_cases [DecidableEq α] (s : Store α) (tid : String) (cfg : Option Nat)
    (inputs : ι)
    (wf : ι → Option α → List (PendingWrite α) →
      List (String × String × α) × Except String (ρ × α)) :
    (invoke s tid cfg inputs wf).1 = s ∨
    (∃ nw, (invoke s tid cfg inputs wf).1 = put_writes s tid (nextCheckpointId s tid) nw) ∨
    (∃ bcp save nw, baseCheckpoint s tid cfg = .ok bcp ∧
      (invoke s tid cfg inputs wf).1 =
        { checkpoints := s.checkpoints ++
            [⟨tid, nextCheckpointId s tid, bcp.map (fun b => b.checkpoint_id),
              [(saveChannel, save)]⟩],
          writes := s.writes ++ stampWrites tid (nextCheckpointId s tid) nw }) := by
  cases hb : baseCheckpoint s tid cfg with
  | error e =>
    left
    rw [invoke_base_error inputs wf hb]
  | ok bcp =>
    cases hwf : wf inputs (bcp.bind (fun cp => lookupChannel cp.channel_values saveChannel))
        (threadWrites s tid (nextCheckpointId s tid)) with
    | mk nw res =>
      cases res with
      | error e =>
        right; left
        exact ⟨nw, by rw [invoke_wf_error hb hwf]⟩
      | ok pr =>
        obtain ⟨ret, save⟩ := pr
        right; right
        refine ⟨bcp, save, nw, rfl, ?_⟩
        rw [invoke_ok_cfg hb hwf]

/-- C1: Round-trip persistence — when the workflow body succeeds with save
value `save`, the invocation returns its value and the next resolution of
`previous` on the same thread (against the store the invocation committed)
yields exactly `save`. -/
theorem claim_C1_roundtrip {α : Type} {ι : Type} {ρ : Type} [DecidableEq α]
    (s : Store α) (tid : String) (inputs : ι)
    (wf : ι → Option α → List (PendingWrite α) →
      List (String × String × α) × Except String (ρ × α))
    (nw : List (String × String × α)) (ret : ρ) (save : α)
    (h : wf inputs (resolvePrevious s tid) (threadWrites s tid (nextCheckpointId s tid)) =
      (nw, .ok (ret, save))) :
    (invoke s tid none inputs wf).2 = .ok ret ∧
      resolvePrevious (invoke s tid none inputs wf).1 tid = some save := by
  rw [invoke_ok_none_cfg s tid inputs wf nw ret save h]
  exact ⟨rfl, resolvePrevious_committed s tid nw save⟩

/-- Witness for C1: on an empty store, committing save value 2 on thread
"1" makes the next resolution of `previous` on thread "1" yield 2. -/
theorem claim_C1_roundtrip_witness :
    wfC1 0 (resolvePrevious (⟨[], []⟩ : Store Nat) "1")
      (threadWrites (⟨[], []⟩ : Store Nat) "1" (nextCheckpointId (⟨[], []⟩ : Store Nat) "1")) =
      ([], .ok (1, 2)) ∧
    (invoke (⟨[], []⟩ : Store Nat) "1" none 0 wfC1).2 = .ok 1 ∧
    resolvePrevious (invoke (⟨[], []⟩ : Store Nat) "1" none 0 wfC1).1 "1" = some 2 := by
  refine ⟨rfl, ?_⟩
  exact claim_C1_roundtrip (⟨[], []⟩ : Store Nat) "1" 0 wfC1 [] 1 2 rfl

/-- C3: Memoized replay — when a PendingWrite for the exact task_id already
exists for the current (thread_id, checkpoint_id), submitting that task_id
returns the cached PendingWrite value, leaves the write list unchanged, and
does not invoke the underlying function (zero calls). -/
theorem claim_C3_memoized_replay {α : Type} (ws : List (PendingWrite α))
    (tid : String) (cid : Nat) (task_id : String) (ch : String)
    (f : Unit → Except String α) (w : PendingWrite α)
    (h : findWrite ws tid cid task_id = some w) :
    submit ws tid cid task_id ch f = ⟨.ok w.value, ws, 0⟩ := by
  simp [submit, h]

/-- Witness for C3 at a concrete cached write: the function (which would
return 99) is not called and the cached value 7 is returned. -/
theorem claim_C3_memoized_replay_witness :
    findWrite [(⟨"t1", 0, "task_a", "ch", 7⟩ : PendingWrite Nat)] "t1" 0 "task_a" = some ⟨"t1", 0, "task_a", "ch", 7⟩ ∧
      submit [(⟨"t1", 0, "task_a", "ch", 7⟩ : PendingWrite Nat)] "t1" 0 "task_a" "ch" (fun _ => .ok 99) = ⟨.ok 7, [⟨"t1", 0, "task_a", "ch", 7⟩], 0⟩ :=
  ⟨by decide,
    claim_C3_memoized_replay [⟨"t1", 0, "task_a", "ch", 7⟩] "t1" 0 "task_a" "ch"
      (fun _ => .ok 99) ⟨"t1", 0, "task_a", "ch", 7⟩ (by decide)⟩

/-- C4: Failures are never cached — if no write is cached and the function
fails, the submission reports the error, records no PendingWrite for the
task_id (the write list is unchanged), and a subsequent submission of the
same task_id against the same checkpoint invokes the function again (both
attempts count one call each). -/
theorem claim_C4_failures_not_cached {α : Type} (ws : List (PendingWrite α))
    (tid : String) (cid : Nat) (task_id : String) (ch : String)
    (f : Unit → Except String α) (e : String)
    (hno : findWrite ws tid cid task_id = none)
    (hf : f () = .error e) :
    submit ws tid cid task_id ch f = ⟨.error e, ws, 1⟩ ∧
      (submit (submit ws tid cid task_id ch f).writes tid cid task_id ch f).calls = 1 := by
  have h1 : submit ws tid cid task_id ch f = ⟨.error e, ws, 1⟩ := by
    simp [submit, hno, hf]
  refine ⟨h1, ?_⟩
  rw [h1]
  simp [submit, hno, hf]

/-- Witness for C4 at a concrete failing task: the first and the second
attempt both invoke the function. -/
theorem claim_C4_failures_not_cached_witness :
    submit ([] : List (PendingWrite Nat)) "t1" 0 "task_a" "ch" (fun _ => .error "boom") = ⟨.error "boom", [], 1⟩ ∧
      (submit (submit ([] : List (PendingWrite Nat)) "t1" 0 "task_a" "ch" (fun _ => .error "boom")).writes "t1" 0 "task_a" "ch" (fun _ => .error "boom")).calls = 1 :=
  claim_C4_failures_not_cached [] "t1" 0 "task_a" "ch" (fun _ => .error "boom") "boom"
    (by decide) rfl

/-- C5: Commit atomicity on failure — when the workflow body fails, the
invocation reports the task error, the thread's checkpoint history is
exactly what it was before the invocation, and every PendingWrite recorded
during the failed attempt is in the store for a retry. -/
theorem claim_C5_commit_atomicity {α : Type} {ι : Type} {ρ : Type} [DecidableEq α]
    (s : Store α) (tid : String) (cfg : Option Nat) (inputs : ι)
    (wf : ι → Option α → List (PendingWrite α) →
      List (String × String × α) × Except String (ρ × α))
    (bcp : Option (Checkpoint α)) (nw : List (String × String × α)) (e : String)
    (hb : baseCheckpoint s tid cfg = .ok bcp)
    (h : wf inputs (bcp.bind (fun cp => lookupChannel cp.channel_values saveChannel))
      (threadWrites s tid (nextCheckpointId s tid)) = (nw, .error e)) :
    (invoke s tid cfg inputs wf).1.checkpoints = s.checkpoints ∧
      (invoke s tid cfg inputs wf).1.writes =
        s.writes ++ stampWrites tid (nextCheckpointId s tid) nw ∧
      (invoke s tid cfg inputs wf).2 = .error (.taskError e) := by
  unfold invoke
  simp only [hb, h]
  simp [put_writes]

/-- Witness for C5: a failing body on thread "1" of an empty store commits
no checkpoint, while the write it recorded for task "ta" is kept. -/
theorem claim_C5_commit_atomicity_witness :
    baseCheckpoint (⟨[], []⟩ : Store Nat) "1" none = .ok none ∧
    (invoke (⟨[], []⟩ : Store Nat) "1" none (0 : Nat) wfC5).1.checkpoints = [] ∧
    (invoke (⟨[], []⟩ : Store Nat) "1" none (0 : Nat) wfC5).1.writes =
      [] ++ stampWrites "1" (nextCheckpointId (⟨[], []⟩ : Store Nat) "1") [("ta", "ch", 7)] ∧
    (invoke (⟨[], []⟩ : Store Nat) "1" none (0 : Nat) wfC5).2 =
      .error (.taskError "boom") := by
  refine ⟨rfl, ?_⟩
  exact claim_C5_commit_atomicity (⟨[], []⟩ : Store Nat) "1" none 0 wfC5 none
    [("ta", "ch", 7)] "boom" rfl rfl

/-- C6: put semantics — if the first checkpoint of the thread with the same
checkpoint_id is identical to the one being put, the retry succeeds as a
no-op leaving the store unchanged; if it differs in any way, put fails with
ConflictError. -/
theorem claim_C6_put_semantics {α : Type} [DecidableEq α] (s : Store α)
    (c d : Checkpoint α)
    (hfind : (threadCheckpoints s c.thread_id).find?
      (fun x => x.checkpoint_id == c.checkpoint_id) = some d) :
    (d = c → put s c = .ok s) ∧ (d ≠ c → put s c = .error .conflictError) := by
  constructor
  · intro hd
    simp [put, hfind, hd]
  · intro hd
    simp [put, hfind, hd]

/-- Witness for C6 at a concrete store holding one checkpoint: an identical
retry is a no-op and a conflicting put with the same id fails. -/
theorem claim_C6_put_semantics_witness :
    ((⟨"t1", 0, none, [("__previous__", 5)]⟩ : Checkpoint Nat) = ⟨"t1", 0, none, [("__previous__", 5)]⟩ →
      put (⟨[⟨"t1", 0, none, [("__previous__", 5)]⟩], []⟩ : Store Nat) ⟨"t1", 0, none, [("__previous__", 5)]⟩ =
        .ok ⟨[⟨"t1", 0, none, [("__previous__", 5)]⟩], []⟩) ∧
    ((⟨"t1", 0, none, [("__previous__", 5)]⟩ : Checkpoint Nat) ≠ ⟨"t1", 0, none, [("__previous__", 6)]⟩ →
      put (⟨[⟨"t1", 0, none, [("__previous__", 5)]⟩], []⟩ : Store Nat) ⟨"t1", 0, none, [("__previous__", 6)]⟩ =
        .error .conflictError) :=
  ⟨(claim_C6_put_semantics (⟨[⟨"t1", 0, none, [("__previous__", 5)]⟩], []⟩ : Store Nat)
      ⟨"t1", 0, none, [("__previous__", 5)]⟩ ⟨"t1", 0, none, [("__previous__", 5)]⟩ (by decide)).1,
    (claim_C6_put_semantics (⟨[⟨"t1", 0, none, [("__previous__", 5)]⟩], []⟩ : Store Nat)
      ⟨"t1", 0, none, [("__previous__", 6)]⟩ ⟨"t1", 0, none, [("__previous__", 5)]⟩ (by decide)).2⟩

theorem stampWrites_filter_self (tid : String) (cid : Nat)
    (nw : List (String × String × α)) :
    (stampWrites tid cid nw).filter (fun w => w.thread_id == tid) =
      stampWrites tid cid nw := by
  induction nw with
  | nil => rfl
  | cons x xs ih =>
    have hh : stampWrites tid cid (x :: xs) =
        ⟨tid, cid, x.1, x.2.1, x.2.2⟩ :: stampWrites tid cid xs := rfl
    rw [hh, List.filter_cons]
    simp [ih]

theorem stampWrites_filter_ne (tid : String) (cid : Nat)
    (nw : List (String × String × α)) {B : String} (hne : tid ≠ B) :
    (stampWrites tid cid nw).filter (fun w => w.thread_id == B) = [] := by
  induction nw with
  | nil => rfl
  | cons x xs ih =>
    have hh : stampWrites tid cid (x :: xs) =
        ⟨tid, cid, x.1, x.2.1, x.2.2⟩ :: stampWrites tid cid xs := rfl
    rw [hh, List.filter_cons]
    simp [ih, hne]

theorem viewInvoke_base_error [DecidableEq α] (v : View α) (st : Step α) {e : StoreError}
    (hb : viewBase v st.cfg = .error e) : viewInvoke v st = v := by
  unfold viewInvoke
  simp only [hb]

theorem viewInvoke_err [DecidableEq α] (v : View α) (st : Step α)
    {bcp : Option (Checkpoint α)} {nw : List (String × String × α)} {e : String}
    (hb : viewBase v st.cfg = .ok bcp)
    (h : st.wf st.inputs (bcp.bind (fun cp => lookupChannel cp.channel_values saveChannel))
      (v.pws.filter (fun w => w.checkpoint_id == viewNextId v)) = (nw, .error e)) :
    viewInvoke v st = ⟨v.cps, v.pws ++ stampWrites st.tid (viewNextId v) nw⟩ := by
  unfold viewInvoke
  simp only [hb, h]

theorem viewInvoke_ok_fresh [DecidableEq α] (v : View α) (st : Step α)
    {bcp : Option (Checkpoint α)} {nw : List (String × String × α)} {ret save : α}
    (hb : viewBase v st.cfg = .ok bcp)
    (h : st.wf st.inputs (bcp.bind (fun cp => lookupChannel cp.channel_values saveChannel))
      (v.pws.filter (fun w => w.checkpoint_id == viewNextId v)) = (nw, .ok (ret, save)))
    (hf : v.cps.find? (fun d => d.checkpoint_id == viewNextId v) = none) :
    viewInvoke v st =
      ⟨v.cps ++ [⟨st.tid, viewNextId v, bcp.map (fun b => b.checkpoint_id),
          [(saveChannel, save)]⟩],
        v.pws ++ stampWrites st.tid (viewNextId v) nw⟩ := by
  unfold viewInvoke
  simp only [hb, h, hf]

theorem viewBase_threadView (s : Store α) (tid : String) (cfg : Option Nat) :
    viewBase (threadView s tid) cfg = baseCheckpoint s tid cfg := by
  cases cfg with
  | none => rfl
  | some cid =>
    cases hf : (threadCheckpoints s tid).find? (fun c => c.checkpoint_id == cid) with
    | none => simp [viewBase, baseCheckpoint, get, threadView, hf]
    | some c => simp [viewBase, baseCheckpoint, get, threadView, hf]

theorem threadView_runStep_ne [DecidableEq α] (s : Store α) (st : Step α) (B : String)
    (hne : st.tid ≠ B) : threadView (runStep s st) B = threadView s B := by
  unfold runStep
  rcases invoke_store_cases s st.tid st.cfg st.inputs st.wf with
    hc | ⟨nw, hc⟩ | ⟨bcp, save, nw, hb, hc⟩
  · rw [hc]
  · rw [hc]
    unfold threadView put_writes writesOf threadCheckpoints
    simp [List.filter_append, stampWrites_filter_ne _ _ _ hne]
  · rw [hc]
    unfold threadView writesOf threadCheckpoints
    simp [List.filter_append, stampWrites_filter_ne _ _ _ hne, hne]

theorem threadView_runStep_self [DecidableEq α] (s : Store α) (st : Step α) :
    threadView (runStep s st) st.tid = viewInvoke (threadView s st.tid) st := by
  unfold runStep
  cases hb : baseCheckpoint s st.tid st.cfg with
  | error e =>
    rw [invoke_base_error st.inputs st.wf hb,
      viewInvoke_base_error (threadView s st.tid) st
        (by rw [viewBase_threadView]; exact hb)]
  | ok bcp =>
    cases hwf : st.wf st.inputs
        (bcp.bind (fun cp => lookupChannel cp.channel_values saveChannel))
        (threadWrites s st.tid (nextCheckpointId s st.tid)) with
    | mk nw res =>
      cases res with
      | error e =>
        rw [invoke_wf_error hb hwf,
          viewInvoke_err (threadView s st.tid) st
            (by rw [viewBase_threadView]; exact hb) hwf]
        rw [show viewNextId (threadView s st.tid) = nextCheckpointId s st.tid from rfl]
        unfold threadView put_writes writesOf threadCheckpoints
        simp [List.filter_append, stampWrites_filter_self]
      | ok pr =>
        obtain ⟨ret, save⟩ := pr
        rw [invoke_ok_cfg hb hwf,
          viewInvoke_ok_fresh (threadView s st.tid) st
            (by rw [viewBase_threadView]; exact hb) hwf (find?_next_id_none s st.tid)]
        rw [show viewNextId (threadView s st.tid) = nextCheckpointId s st.tid from rfl]
        unfold threadView writesOf threadCheckpoints
        simp [List.filter_append, stampWrites_filter_self]

theorem threadView_runSeq [DecidableEq α] (B : String) (steps : List (Step α)) :
    ∀ (s : Store α), threadView (runSeq s steps) B =
      viewRun (threadView s B) (steps.filter (fun st => st.tid == B)) := by
  induction steps with
  | nil => intro s; rfl
  | cons st sts ih =>
    intro s
    have h1 : runSeq s (st :: sts) = runSeq (runStep s st) sts := rfl
    by_cases h : st.tid = B
    · have hfilter : (st :: sts).filter (fun st => st.tid == B) =
          st :: sts.filter (fun st => st.tid == B) := by
        simp [List.filter_cons, h]
      rw [hfilter, h1, ih (runStep s st)]
      have h2 : viewRun (threadView s B) (st :: sts.filter (fun st => st.tid == B)) =
          viewRun (viewInvoke (threadView s B) st)
            (sts.filter (fun st => st.tid == B)) := rfl
      rw [h2]
      congr 1
      subst h
      exact threadView_runStep_self s st
    · have hfilter : (st :: sts).filter (fun st => st.tid == B) =
          sts.filter (fun st => st.tid == B) := by
        simp [List.filter_cons, h]
      rw [hfilter, h1, ih (runStep s st), threadView_runStep_ne s st B h]

theorem resolvePrevious_view (s : Store α) (tid : String) :
    resolvePrevious s tid = viewPrevious (threadView s tid) := rfl

/-- C2: Thread isolation (noninterference) — for any two runs whose initial
stores agree on thread B's view and whose invocation sequences agree on the
subsequence addressed to thread B (arbitrarily interleaved with other
threads' invocations, which may differ completely), the `previous` resolved
for thread B after the runs is the same. -/
theorem claim_C2_thread_isolation {α : Type} [DecidableEq α]
    (s1 s2 : Store α) (steps1 steps2 : List (Step α)) (B : String)
    (hview : threadView s1 B = threadView s2 B)
    (hsteps : steps1.filter (fun st => st.tid == B) =
      steps2.filter (fun st => st.tid == B)) :
    resolvePrevious (runSeq s1 steps1) B = resolvePrevious (runSeq s2 steps2) B := by
  rw [resolvePrevious_view (runSeq s1 steps1) B, resolvePrevious_view (runSeq s2 steps2) B,
    threadView_runSeq B steps1 s1, threadView_runSeq B steps2 s2, hview, hsteps]

/-- Witness for C2: a run in which thread "A" commits state versus a run
with no invocations at all resolve the same `previous` for thread "B". -/
theorem claim_C2_thread_isolation_witness :
    threadView (⟨[], []⟩ : Store Nat) "B" = threadView (⟨[], []⟩ : Store Nat) "B" ∧
    ([⟨"A", none, 0, wfC2⟩] : List (Step Nat)).filter (fun st => st.tid == "B") =
      ([] : List (Step Nat)).filter (fun st => st.tid == "B") ∧
    resolvePrevious (runSeq (⟨[], []⟩ : Store Nat) [⟨"A", none, 0, wfC2⟩]) "B" =
      resolvePrevious (runSeq (⟨[], []⟩ : Store Nat) ([] : List (Step Nat))) "B" :=
  ⟨rfl, rfl,
    claim_C2_thread_isolation ⟨[], []⟩ ⟨[], []⟩ [⟨"A", none, 0, wfC2⟩] [] "B" rfl rfl⟩

theorem treeInv_of_eq {s1 s2 : Store α} (h : s2.checkpoints = s1.checkpoints)
    (hs : TreeInv s1) : TreeInv s2 := by
  intro c hc p hp
  rw [h] at hc
  obtain ⟨hlt, d, hd, hdt, hdc⟩ := hs c hc p hp
  exact ⟨hlt, d, by rw [h]; exact hd, hdt, hdc⟩

theorem treeInv_append {s : Store α} (hs : TreeInv s) {s2 : Store α} {cp : Checkpoint α}
    (h2 : s2.checkpoints = s.checkpoints ++ [cp])
    (hcp : ∀ p, cp.parent_checkpoint_id = some p →
      p < cp.checkpoint_id ∧
        ∃ d ∈ s.checkpoints, d.thread_id = cp.thread_id ∧ d.checkpoint_id = p) :
    TreeInv s2 := by
  intro c hc p hp
  rw [h2] at hc
  rcases List.mem_append.mp hc with hold | hnew
  · obtain ⟨hlt, d, hd, hdt, hdc⟩ := hs c hold p hp
    exact ⟨hlt, d, by rw [h2]; exact List.mem_append_left _ hd, hdt, hdc⟩
  · have hcc : c = cp := by simpa using hnew
    subst hcc
    obtain ⟨hlt, d, hd, hdt, hdc⟩ := hcp p hp
    exact ⟨hlt, d, by rw [h2]; exact List.mem_append_left _ hd, hdt, hdc⟩

theorem treeInv_runStep [DecidableEq α] {s : Store α} (hs : TreeInv s) (st : Step α) :
    TreeInv (runStep s st) := by
  unfold runStep
  rcases invoke_store_cases s st.tid st.cfg st.inputs st.wf with
    hc | ⟨nw, hc⟩ | ⟨bcp, save, nw, hb, hc⟩
  · exact treeInv_of_eq (by rw [hc]) hs
  · exact treeInv_of_eq (by rw [hc]; rfl) hs
  · refine treeInv_append hs (by rw [hc]) ?_
    intro p hp
    cases bcp with
    | none => simp at hp
    | some b =>
      have hpb : b.checkpoint_id = p := by simpa using hp
      subst hpb
      have hmem := base_some_mem hb
      constructor
      · exact lt_next_id s st.tid b hmem
      · obtain ⟨hin, htid⟩ := mem_threadCheckpoints hmem
        exact ⟨b, hin, by rw [htid], rfl⟩

theorem treeInv_runSeq [DecidableEq α] :
    ∀ (steps : List (Step α)) (s : Store α), TreeInv s → TreeInv (runSeq s steps)
  | [], _, hs => hs
  | st :: sts, s, hs => treeInv_runSeq sts (runStep s st) (treeInv_runStep hs st)

/-- C8: Checkpoint history is a tree — every run of invocations preserves
the invariant that a parent_checkpoint_id references an existing checkpoint
of the same thread with a strictly smaller id (the parent relation is
acyclic); and invoking with `checkpoint_id` set to an older checkpoint of
the thread commits a new child of exactly that checkpoint while the
original checkpoint list stays in place unchanged. -/
theorem claim_C8_checkpoint_tree {α : Type} [DecidableEq α] :
    (∀ (s : Store α) (steps : List (Step α)), TreeInv s → TreeInv (runSeq s steps)) ∧
    (∀ (s : Store α) (tid : String) (cid : Nat) (inputs : α)
      (wf : α → Option α → List (PendingWrite α) →
        List (String × String × α) × Except String (α × α))
      (b : Checkpoint α) (nw : List (String × String × α)) (ret save : α),
      get s tid cid = .ok b →
      wf inputs (lookupChannel b.channel_values saveChannel)
        (threadWrites s tid (nextCheckpointId s tid)) = (nw, .ok (ret, save)) →
      (invoke s tid (some cid) inputs wf).1.checkpoints =
        s.checkpoints ++
          [⟨tid, nextCheckpointId s tid, some cid, [(saveChannel, save)]⟩]) := by
  constructor
  · intro s steps hs
    exact treeInv_runSeq steps s hs
  · intro s tid cid inputs wf b nw ret save hget hwf
    have hb : baseCheckpoint s tid (some cid) = .ok (some b) := by
      simp only [baseCheckpoint, hget]
    have hcid : b.checkpoint_id = cid := (get_ok_mem hget).2
    rw [invoke_ok_cfg hb hwf]
    simp [hcid]

/-- Witness for C8: an invocation on the empty store preserves the tree
invariant, and forking thread "1" (two checkpoints, ids 0 and 1) from
checkpoint 0 appends a new child of checkpoint 0 with the two original
checkpoints intact. -/
theorem claim_C8_checkpoint_tree_witness :
    TreeInv (runSeq (⟨[], []⟩ : Store Nat) [⟨"1", none, 0, wfC8⟩]) ∧
    (invoke s8 "1" (some 0) 0 wfC8).1.checkpoints =
      s8.checkpoints ++ [⟨"1", nextCheckpointId s8 "1", some 0, [("__previous__", 12)]⟩] :=
  ⟨(claim_C8_checkpoint_tree (α := Nat)).1 ⟨[], []⟩ [⟨"1", none, 0, wfC8⟩]
      (fun c hc => absurd hc (List.not_mem_nil c)),
    (claim_C8_checkpoint_tree (α := Nat)).2 s8 "1" 0 0 wfC8
      ⟨"1", 0, none, [("__previous__", 10)]⟩ [] 0 12 rfl rfl⟩

/-- C7: Previous resolution — `previous` is the save-channel value of
get_latest(thread_id); when the thread has no checkpoints, get_latest is
none, `previous` is the absence sentinel none, and an invocation whose body
succeeds proceeds normally rather than failing. -/
theorem claim_C7_previous_resolution {α : Type} {ι : Type} {ρ : Type} [DecidableEq α] :
    (∀ (s : Store α) (tid : String) (cp : Checkpoint α), get_latest s tid = some cp →
      resolvePrevious s tid = lookupChannel cp.channel_values saveChannel) ∧
    (∀ (s : Store α) (tid : String) (inputs : ι)
      (wf : ι → Option α → List (PendingWrite α) →
        List (String × String × α) × Except String (ρ × α))
      (nw : List (String × String × α)) (ret : ρ) (save : α),
      get_latest s tid = none →
      wf inputs none (threadWrites s tid (nextCheckpointId s tid)) = (nw, .ok (ret, save)) →
      resolvePrevious s tid = none ∧ (invoke s tid none inputs wf).2 = .ok ret) := by
  constructor
  · intro s tid cp h
    simp [resolvePrevious, h]
  · intro s tid inputs wf nw ret save hnone h
    have hprev : resolvePrevious s tid = none := by simp [resolvePrevious, hnone]
    refine ⟨hprev, ?_⟩
    rw [invoke_ok_none_cfg s tid inputs wf nw ret save (by rw [hprev]; exact h)]

/-- Witness for C7: a thread with one committed checkpoint resolves its
save-channel value; a fresh thread resolves none and the invocation still
succeeds. -/
theorem claim_C7_previous_resolution_witness :
    resolvePrevious (⟨[⟨"1", 0, none, [("__previous__", (5 : Nat))]⟩], []⟩ : Store Nat) "1" =
      lookupChannel [("__previous__", (5 : Nat))] saveChannel ∧
    (resolvePrevious (⟨[], []⟩ : Store Nat) "2" = none ∧
      (invoke (⟨[], []⟩ : Store Nat) "2" none (0 : Nat) wfC7).2 = .ok 3) :=
  ⟨(claim_C7_previous_resolution (α := Nat) (ι := Nat) (ρ := Nat)).1
      (⟨[⟨"1", 0, none, [("__previous__", 5)]⟩], []⟩ : Store Nat) "1"
      ⟨"1", 0, none, [("__previous__", 5)]⟩ (by decide),
    (claim_C7_previous_resolution (α := Nat) (ι := Nat) (ρ := Nat)).2
      (⟨[], []⟩ : Store Nat) "2" 0 wfC7 [] 3 4 (by decide) rfl⟩

theorem extractFirst_prop {p : β → Bool} :
    ∀ {l : List β} {y : β} {ys : List β}, extractFirst p l = some (y, ys) → p y = true := by
  intro l
  induction l with
  | nil => intro y ys h; cases h
  | cons x xs ih =>
    intro y ys h
    by_cases hp : p x = true
    · simp only [extractFirst, if_pos hp] at h
      injection h with h1
      injection h1 with ha hb
      subst ha
      exact hp
    · simp only [extractFirst, if_neg hp] at h
      cases he : extractFirst p xs with
      | none => rw [he] at h; cases h
      | some pr =>
        obtain ⟨z, zs⟩ := pr
        rw [he] at h
        injection h with h1
        injection h1 with ha hb
        subst ha
        exact ih he

theorem extractFirst_perm {p : β → Bool} :
    ∀ {l : List β} {y : β} {ys : List β}, extractFirst p l = some (y, ys) →
      l.Perm (y :: ys) := by
  intro l
  induction l with
  | nil => intro y ys h; cases h
  | cons x xs ih =>
    intro y ys h
    by_cases hp : p x = true
    · simp only [extractFirst, if_pos hp] at h
      injection h with h1
      injection h1 with ha hb
      subst ha
      subst hb
      exact List.Perm.refl _
    · simp only [extractFirst, if_neg hp] at h
      cases he : extractFirst p xs with
      | none => rw [he] at h; cases h
      | some pr =>
        obtain ⟨z, zs⟩ := pr
        rw [he] at h
        injection h with h1
        injection h1 with ha hb
        subst ha
        subst hb
        exact ((ih he).cons x).trans (List.Perm.swap z x zs)

theorem find?_id_of_nodup {l : List (STask α)}
    (hnd : (l.map (fun t => t.id)).Nodup) {t : STask α} (ht : t ∈ l) :
    l.find? (fun u => u.id == t.id) = some t := by
  induction l with
  | nil => simp at ht
  | cons x xs ih =>
    simp only [List.map_cons, List.nodup_cons] at hnd
    rcases List.mem_cons.mp ht with h1 | h1
    · subst h1
      rw [List.find?_cons_of_pos _ (by simp)]
    · have hne : (x.id == t.id) = false := by
        rw [beq_eq_false_iff_ne]
        intro he
        exact hnd.1 (he ▸ List.mem_map_of_mem _ h1)
      rw [List.find?_cons_of_neg _ (by simp [hne])]
      exact ih hnd.2 h1

theorem depsOf_of_mem {tasks : List (STask α)}
    (hnd : (tasks.map (fun t => t.id)).Nodup) {t : STask α} (ht : t ∈ tasks) :
    depsOf tasks t.id = t.deps := by
  unfold depsOf
  rw [find?_id_of_nodup hnd ht]

theorem runnable_deps {done : List String} {t : STask α}
    (h : runnableB done t = true) : ∀ d ∈ t.deps, d ∈ done := by
  intro d hd
  unfold runnableB at h
  rw [List.all_eq_true] at h
  have hc := h d hd
  simpa using hc

theorem streamLoop_inv [DecidableEq α] (tasks : List (STask α)) (fuel : Nat) :
    ∀ (pending : List (STask α)) (done : List String) (acc : α) (evs : List (Event α)),
      (∀ e ∈ evs, e.task ∈ done) →
      (∀ u ∈ done, ∀ d ∈ depsOf tasks u, d ∈ done) →
      (∀ t ∈ pending, t.id ∉ done) →
      (∀ t ∈ pending, depsOf tasks t.id = t.deps) →
      (pending.map (fun t => t.id)).Nodup →
      evs.Pairwise (fun e1 e2 => e2.task ∉ depsOf tasks e1.task) →
      evs.Chain' (fun e1 e2 => e1.value ≠ e2.value) →
      (∀ e, evs.getLast? = some e → e.value = acc) →
      (streamLoop fuel pending done acc evs).Pairwise
          (fun e1 e2 => e2.task ∉ depsOf tasks e1.task) ∧
        (streamLoop fuel pending done acc evs).Chain'
          (fun e1 e2 => e1.value ≠ e2.value) := by
  induction fuel with
  | zero =>
    intro pending done acc evs h1 h2 h3 h4 h5 h6 h7 h8
    exact ⟨h6, h7⟩
  | succ n ih =>
    intro pending done acc evs h1 h2 h3 h4 h5 h6 h7 h8
    cases hx : extractFirst (runnableB done) pending with
    | none =>
      simp only [streamLoop, hx]
      exact ⟨h6, h7⟩
    | some pr =>
      obtain ⟨t, rest⟩ := pr
      simp only [streamLoop, hx]
      have hperm : pending.Perm (t :: rest) := extractFirst_perm hx
      have htp : t ∈ pending := hperm.symm.subset (List.mem_cons_self t rest)
      have hrest : ∀ u ∈ rest, u ∈ pending := fun u hu =>
        hperm.symm.subset (List.mem_cons_of_mem t hu)
      have hidnd : (t.id :: rest.map (fun u => u.id)).Nodup := by
        have h9 := ((hperm.map (fun u => u.id)).nodup_iff).mp h5
        simpa using h9
      have hidnd2 := List.nodup_cons.mp hidnd
      have hpt : runnableB done t = true := extractFirst_prop hx
      have hdeps : ∀ d ∈ t.deps, d ∈ done := runnable_deps hpt
      have htnotdone : t.id ∉ done := h3 t htp
      have h2' : ∀ u ∈ done ++ [t.id], ∀ d ∈ depsOf tasks u, d ∈ done ++ [t.id] := by
        intro u hu d hd
        rcases List.mem_append.mp hu with hu | hu
        · exact List.mem_append_left _ (h2 u hu d hd)
        · have hut : u = t.id := by simpa using hu
          subst hut
          rw [h4 t htp] at hd
          exact List.mem_append_left _ (hdeps d hd)
      have h3' : ∀ u ∈ rest, u.id ∉ done ++ [t.id] := by
        intro u hu
        have h3u := h3 u (hrest u hu)
        have hne : u.id ≠ t.id := by
          intro he
          exact hidnd2.1 (he ▸ List.mem_map_of_mem _ hu)
        simp [List.mem_append, h3u, hne]
      have h4' : ∀ u ∈ rest, depsOf tasks u.id = u.deps := fun u hu => h4 u (hrest u hu)
      by_cases hch : t.fn acc = acc
      · rw [if_pos hch]
        apply ih rest (done ++ [t.id]) (t.fn acc) evs ?_ h2' h3' h4' hidnd2.2 h6 h7 ?_
        · intro e he
          exact List.mem_append_left _ (h1 e he)
        · intro e he
          rw [hch]
          exact h8 e he
      · rw [if_neg hch]
        apply ih rest (done ++ [t.id]) (t.fn acc)
          (evs ++ [(⟨t.id, t.fn acc⟩ : Event α)]) ?_ h2' h3' h4' hidnd2.2 ?_ ?_ ?_
        · intro e he
          rcases List.mem_append.mp he with he | he
          · exact List.mem_append_left _ (h1 e he)
          · have he2 : e = ⟨t.id, t.fn acc⟩ := by simpa using he
            subst he2
            exact List.mem_append_right _ (List.mem_singleton_self _)
        · rw [List.pairwise_append]
          refine ⟨h6, List.pairwise_singleton _ _, ?_⟩
          intro e1 he1 e2 he2
          have he2' : e2 = ⟨t.id, t.fn acc⟩ := by simpa using he2
          subst he2'
          show t.id ∉ depsOf tasks e1.task
          intro hmem
          exact htnotdone (h2 e1.task (h1 e1 he1) t.id hmem)
        · rw [List.chain'_append]
          refine ⟨h7, List.chain'_singleton _, ?_⟩
          intro x hx2 y hy
          have hy0 : (⟨t.id, t.fn acc⟩ : Event α) = y := by simpa using hy
          have hy' : y = (⟨t.id, t.fn acc⟩ : Event α) := hy0.symm
          subst hy'
          have hxv := h8 x hx2
          show x.value ≠ t.fn acc
          rw [hxv]
          exact fun hcontra => hch hcontra.symm
        · intro e he
          rw [List.getLast?_concat] at he
          injection he with he
          subst he
          rfl

/-- C9: Stream ordering in mode `values` — the emitted event list is finite
(a list), contains the cumulative visible value only when it changes
(consecutive events carry distinct values), events appear in the order
their producing tasks completed, and, when task ids are unique, an event
produced by a task never precedes an event of a task it causally depends
on. -/
theorem claim_C9_stream_ordering {α : Type} [DecidableEq α] (tasks : List (STask α))
    (init : α) (hnd : (tasks.map (fun t => t.id)).Nodup) :
    (streamValues tasks init).Pairwise (fun e1 e2 => e2.task ∉ depsOf tasks e1.task) ∧
      (streamValues tasks init).Chain' (fun e1 e2 => e1.value ≠ e2.value) := by
  unfold streamValues
  apply streamLoop_inv tasks tasks.length tasks [] init []
  · intro e he; simp at he
  · intro u hu; simp at hu
  · intro t ht; simp
  · intro t ht; exact depsOf_of_mem hnd ht
  · exact hnd
  · exact List.Pairwise.nil
  · exact List.chain'_nil
  · intro e he; simp at he

/-- Witness for C9 with two tasks where "b" depends on "a": no event for
"a" follows the event of "b", and consecutive emitted values differ. -/
theorem claim_C9_stream_ordering_witness :
    (tasks9.map (fun t => t.id)).Nodup ∧
    ((streamValues tasks9 0).Pairwise (fun e1 e2 => e2.task ∉ depsOf tasks9 e1.task) ∧
      (streamValues tasks9 0).Chain' (fun e1 e2 => e1.value ≠ e2.value)) :=
  ⟨by decide, claim_C9_stream_ordering tasks9 0 (by decide)⟩

/-- C10: the notebook's workflow body — the saved value always ends with
the response that is returned to the caller (the returned value is the
final message of the saved history); the resolved history is preserved at
the front of the saved value; and a non-empty `previous` is merged into the
inputs before the model call, the saved value being
add_messages(merged inputs, response). -/
theorem claim_C10_workflow_save {μ : Type} (m : List μ → μ) (inputs : List μ)
    (previous : Option (List μ)) :
    (workflow m inputs previous).2.getLast? = some (workflow m inputs previous).1 ∧
    (∀ p, previous = some p → ∃ rest, (workflow m inputs previous).2 = p ++ rest) ∧
    (∀ p, previous = some p → p ≠ [] →
      (workflow m inputs previous).1 = call_model m (add_messages p inputs) ∧
      (workflow m inputs previous).2 =
        add_messages (add_messages p inputs) [call_model m (add_messages p inputs)]) := by
  cases previous with
  | none =>
    refine ⟨?_, ?_, ?_⟩
    · show (add_messages inputs [call_model m inputs]).getLast? = some (call_model m inputs)
      rw [show add_messages inputs [call_model m inputs] =
        inputs ++ [call_model m inputs] from rfl, List.getLast?_concat]
    · intro p hp; cases hp
    · intro p hp; cases hp
  | some p =>
    cases p with
    | nil =>
      refine ⟨?_, ?_, ?_⟩
      · show (add_messages inputs [call_model m inputs]).getLast? = some (call_model m inputs)
        rw [show add_messages inputs [call_model m inputs] =
          inputs ++ [call_model m inputs] from rfl, List.getLast?_concat]
      · intro q hq
        injection hq with hq
        subst hq
        exact ⟨add_messages inputs [call_model m inputs], rfl⟩
      · intro q hq hne
        injection hq with hq
        subst hq
        exact absurd rfl hne
    | cons a as =>
      refine ⟨?_, ?_, ?_⟩
      · show (add_messages (add_messages (a :: as) inputs)
            [call_model m (add_messages (a :: as) inputs)]).getLast? =
          some (call_model m (add_messages (a :: as) inputs))
        rw [show add_messages (add_messages (a :: as) inputs)
            [call_model m (add_messages (a :: as) inputs)] =
          add_messages (a :: as) inputs ++
            [call_model m (add_messages (a :: as) inputs)] from rfl,
          List.getLast?_concat]
      · intro q hq
        injection hq with hq
        subst hq
        refine ⟨inputs ++ [call_model m (add_messages (a :: as) inputs)], ?_⟩
        show add_messages (add_messages (a :: as) inputs)
            [call_model m (add_messages (a :: as) inputs)] =
          (a :: as) ++ (inputs ++ [call_model m (add_messages (a :: as) inputs)])
        simp [add_messages]
      · intro q hq hne
        injection hq with hq
        subst hq
        exact ⟨rfl, rfl⟩

/-- Witness for C10 with a summing model, inputs [5] and previous history
[3]: the saved history is [3, 5, 8], its last message 8 is the returned
response, and [3] is preserved at the front. -/
theorem claim_C10_workflow_save_witness :
    (workflow (fun l => l.sum) [5] (some [3])).2.getLast? =
      some (workflow (fun l => l.sum) [5] (some [3])).1 ∧
    (∃ rest, (workflow (fun l => l.sum) [5] (some [3])).2 = [3] ++ rest) ∧
    ((workflow (fun l => l.sum) [5] (some [3])).1 =
        call_model (fun l => l.sum) (add_messages [3] [5]) ∧
      (workflow (fun l => l.sum) [5] (some [3])).2 =
        add_messages (add_messages [3] [5])
          [call_model (fun l => l.sum) (add_messages [3] [5])]) :=
  ⟨(claim_C10_workflow_save (fun l => l.sum) [5] (some [3])).1,
    (claim_C10_workflow_save (fun l => l.sum) [5] (some [3])).2.1 [3] rfl,
    (claim_C10_workflow_save (fun l => l.sum) [5] (some [3])).2.2 [3] rfl (by decide)⟩

end LangGraph
